import Mathlib

set_option maxHeartbeats 1000000

/-!
Verification development for a two-stage front end (lexer + recursive-descent
parser) of a small expression language, translated from the Rust sources
`src/parser/src/lexer.rs`, `src/parser/src/types.rs` and
`src/parser/src/parser.rs`.

Strings are modelled as `List Char`.  Rust functions that can abort at run
time (out-of-bounds slicing, assertion failures, unbalanced tree-builder
usage) are modelled as `Option`-valued functions where `none` is the abort.
-/

/-- The terminal token kinds, exactly the 44 variants of `enum TokenKind`
(defined identically in `lexer.rs` and `types.rs`). -/
inductive TokenKind where
  | LParen | RParen | LBrac | RBrac | Comma | Dot | Minus | Plus | Semicolon | Slash | Star
  | Bang | BangEqual | Equal | EqualEqual | Greater | GreaterEqual | Less | LessEqual
  | Identifier | StringLiteral | Number
  | And | Class | Else | False | Fn | For | If | Nil | Or | Print | Return | Super | This
  | True | Var | While
  | LineComment | BlockComment | Whitespace | Newline
  | ErrorUnexpected | ErrorUnterminatedString
  deriving DecidableEq, Fintype

/-- `struct Token { kind, text }` from `lexer.rs`; `text` is the exact slice
of the source covered by the token. -/
structure Token where
  kind : TokenKind
  text : List Char
  deriving DecidableEq

/-- The two character classification predicates of the Rust standard library
used by the lexer (`char::is_numeric`, `char::is_alphabetic`).  They are full
Unicode predicates, so the lexer is parameterised over them; concrete
instantiations used in the theorems below agree with Unicode on every code
point they are applied to. -/
structure CharClass where
  isNumeric : Char → Bool
  isAlphabetic : Char → Bool

/-- The `KEYWORDS` perfect-hash map of `lexer.rs`: exact-match lookup of the
16 keywords. -/
def keywordKind (s : List Char) : Option TokenKind :=
  if s = "and".toList then some .And
  else if s = "class".toList then some .Class
  else if s = "else".toList then some .Else
  else if s = "false".toList then some .False
  else if s = "for".toList then some .For
  else if s = "fn".toList then some .Fn
  else if s = "if".toList then some .If
  else if s = "nil".toList then some .Nil
  else if s = "or".toList then some .Or
  else if s = "print".toList then some .Print
  else if s = "return".toList then some .Return
  else if s = "super".toList then some .Super
  else if s = "this".toList then some .This
  else if s = "true".toList then some .True
  else if s = "var".toList then some .Var
  else if s = "while".toList then some .While
  else none

/-- `valid_token` from `lexer.rs`: greedy recognition of one token at the
start of `input`, `none` when no valid token starts here.  The branches are
in the order of the Rust `match` on the first character.

Two faithfulness notes:
* In the block-comment branch the Rust code builds the pair list
  `once((input[0], input[1])).chain(chars.zip(input.chars().skip(2)))`,
  i.e. all pairs `(input[i], input[i+1])`, keeps them while the pair is not
  `('*','/')`, maps each kept pair to its second component, and wraps the
  result in `'/' ... '/'`.  When no closing `*/` exists this appends a final
  `'/'` that is not part of the input, making `text` one character longer
  than the input.
* The identifier arm of the Rust `match` is `c @ '_' | c if c.is_alphabetic()`;
  a Rust match guard applies to the whole arm (both alternatives), so a
  leading `'_'` does not actually enter this arm. -/
def validToken (cc : CharClass) (input : List Char) : Option Token :=
  match input with
  | [] => none
  | c :: rest =>
    if c = '(' then some ⟨.LParen, [c]⟩
    else if c = ')' then some ⟨.RParen, [c]⟩
    else if c = '{' then some ⟨.LBrac, [c]⟩
    else if c = '}' then some ⟨.RBrac, [c]⟩
    else if c = ',' then some ⟨.Comma, [c]⟩
    else if c = '.' then some ⟨.Dot, [c]⟩
    else if c = '-' then some ⟨.Minus, [c]⟩
    else if c = '+' then some ⟨.Plus, [c]⟩
    else if c = ';' then some ⟨.Semicolon, [c]⟩
    else if c = '*' then some ⟨.Star, [c]⟩
    else if c = '!' then
      match rest with
      | '=' :: _ => some ⟨.BangEqual, ['!', '=']⟩
      | _ => some ⟨.Bang, [c]⟩
    else if c = '=' then
      match rest with
      | '=' :: _ => some ⟨.EqualEqual, ['=', '=']⟩
      | _ => some ⟨.Equal, [c]⟩
    else if c = '<' then
      match rest with
      | '=' :: _ => some ⟨.LessEqual, ['<', '=']⟩
      | _ => some ⟨.Less, [c]⟩
    else if c = '>' then
      match rest with
      | '=' :: _ => some ⟨.GreaterEqual, ['>', '=']⟩
      | _ => some ⟨.Greater, [c]⟩
    else if c = '/' then
      match rest with
      | '/' :: r2 => some ⟨.LineComment, '/' :: '/' :: r2.takeWhile (fun x => x ≠ '\n')⟩
      | '*' :: _ =>
        let pairs := input.zip input.tail
        let kept := pairs.takeWhile (fun p => !(p.1 = '*' && p.2 = '/'))
        some ⟨.BlockComment, '/' :: (kept.map Prod.snd ++ ['/'])⟩
      | _ => some ⟨.Slash, [c]⟩
    else if c = ' ' ∨ c = '\r' ∨ c = '\t' then
      some ⟨.Whitespace, c :: rest.takeWhile (fun x => x = ' ' || x = '\r' || x = '\t')⟩
    else if c = '"' then
      let body := rest.takeWhile (fun x => x ≠ '"')
      if body.length = rest.length then some ⟨.ErrorUnterminatedString, c :: rest⟩
      else some ⟨.StringLiteral, c :: (body ++ ['"'])⟩
    else if c = '\n' then some ⟨.Newline, [c]⟩
    else if cc.isNumeric c then
      let ds := rest.takeWhile (fun x => cc.isNumeric x || x = '_')
      match rest.drop ds.length with
      | '.' :: tl =>
        match tl with
        | d :: _ =>
          if cc.isNumeric d then
            some ⟨.Number, c :: (ds ++ '.' :: tl.takeWhile (fun x => cc.isNumeric x || x = '_'))⟩
          else some ⟨.Number, c :: ds⟩
        | [] => some ⟨.Number, c :: ds⟩
      | _ => some ⟨.Number, c :: ds⟩
    else if cc.isAlphabetic c then
      let ident := c :: rest.takeWhile (fun x => cc.isAlphabetic x || cc.isNumeric x || x = '_')
      some ⟨(keywordKind ident).getD .Identifier, ident⟩
    else none

/-- The length scanned by `invalid_token` from `lexer.rs`: advance one code
point at a time; after each advance stop as soon as a valid token can be
recognised at the new position. -/
def invalidLen (cc : CharClass) : List Char → Nat
  | [] => 0
  | _ :: rest => 1 + (if (validToken cc rest).isSome then 0 else invalidLen cc rest)

/-- `invalid_token` from `lexer.rs`: one `ErrorUnexpected` token spanning the
scanned run. -/
def invalidToken (cc : CharClass) (input : List Char) : Token :=
  ⟨.ErrorUnexpected, input.take (invalidLen cc input)⟩

/-- The loop of `lex` from `lexer.rs`, with explicit fuel.  One iteration:
recognise the next token (`valid_token` falling back to `invalid_token`) and
slice it off the remaining input.  The Rust slice `&rest[next.text.len()..]`
aborts when the token text is longer than the remaining input, modelled by
`none`; a token of length `0` would make the Rust loop run forever, which the
fuel (one unit per consumed token plus one, see `lex`) also turns into
`none`. -/
def lexGo (cc : CharClass) : Nat → List Char → Option (List Token)
  | _, [] => some []
  | 0, _ :: _ => none
  | fuel + 1, c :: rest =>
    let t := (validToken cc (c :: rest)).getD (invalidToken cc (c :: rest))
    if t.text.length ≤ (c :: rest).length then
      match lexGo cc fuel ((c :: rest).drop t.text.length) with
      | some ts => some (t :: ts)
      | none => none
    else none

/-- `lex` from `lexer.rs`.  Since every genuinely returning Rust execution
consumes at least one character per emitted token, fuel `input.length + 1`
is exact: `lex` returns `some` precisely when the Rust `lex` returns. -/
def lex (cc : CharClass) (input : List Char) : Option (List Token) :=
  lexGo cc (input.length + 1) input

/-- A concrete instantiation of the character classes, agreeing with the
Unicode predicates `char::is_numeric` / `char::is_alphabetic` on every code
point appearing in the concrete inputs of this development: ASCII digits and
letters, the Arabic-Indic digit `'٣'` (U+0663, numeric), the letter `'é'`
(alphabetic), and `'_'`, `'?'` (neither). -/
def ucTest : CharClass where
  isNumeric c := c.isDigit || c = '٣'
  isAlphabetic c := c.isAlpha || c = 'é'

/-- Modelled from the spec: the `SyntaxKind` enumeration that `parser.rs`
requires.  The `types.rs` present under `src/` generates `SyntaxKind` from
the `build_impls!` macro with only the 44 `TokenKind` variants plus `Root`
(see `SyntaxKindTypes` below for that faithful embedding) — the composite
kinds `Unary`, `Factor`, `Term`, `Comparison`, `Equality` that `parser.rs`
references are missing from it.  Following §3 of the spec ("every
`TokenKind` value plus composite node kinds ... `Root` is reserved as the
maximum value"), this enumeration is the token kinds in order, then the five
composite kinds, then `Root` last. -/
inductive SyntaxKind where
  | LParen | RParen | LBrac | RBrac | Comma | Dot | Minus | Plus | Semicolon | Slash | Star
  | Bang | BangEqual | Equal | EqualEqual | Greater | GreaterEqual | Less | LessEqual
  | Identifier | StringLiteral | Number
  | And | Class | Else | False | Fn | For | If | Nil | Or | Print | Return | Super | This
  | True | Var | While
  | LineComment | BlockComment | Whitespace | Newline
  | ErrorUnexpected | ErrorUnterminatedString
  | Unary | Factor | Term | Comparison | Equality
  | Root
  deriving DecidableEq, Fintype

/-- `impl From<TokenKind> for SyntaxKind` (generated by `build_impls!` in
`types.rs`): each terminal maps to the same-named kind. -/
def TokenKind.toSyntaxKind : TokenKind → SyntaxKind
  | .LParen => .LParen
  | .RParen => .RParen
  | .LBrac => .LBrac
  | .RBrac => .RBrac
  | .Comma => .Comma
  | .Dot => .Dot
  | .Minus => .Minus
  | .Plus => .Plus
  | .Semicolon => .Semicolon
  | .Slash => .Slash
  | .Star => .Star
  | .Bang => .Bang
  | .BangEqual => .BangEqual
  | .Equal => .Equal
  | .EqualEqual => .EqualEqual
  | .Greater => .Greater
  | .GreaterEqual => .GreaterEqual
  | .Less => .Less
  | .LessEqual => .LessEqual
  | .Identifier => .Identifier
  | .StringLiteral => .StringLiteral
  | .Number => .Number
  | .And => .And
  | .Class => .Class
  | .Else => .Else
  | .False => .False
  | .Fn => .Fn
  | .For => .For
  | .If => .If
  | .Nil => .Nil
  | .Or => .Or
  | .Print => .Print
  | .Return => .Return
  | .Super => .Super
  | .This => .This
  | .True => .True
  | .Var => .Var
  | .While => .While
  | .LineComment => .LineComment
  | .BlockComment => .BlockComment
  | .Whitespace => .Whitespace
  | .Newline => .Newline
  | .ErrorUnexpected => .ErrorUnexpected
  | .ErrorUnterminatedString => .ErrorUnterminatedString

/-- The `#[repr(u16)]` ordinal of each `SyntaxKind` value (the first variant
is pinned to `0` by the macro, the following ones count up, `Root` is
last/maximal). -/
def syntaxKindIdx : SyntaxKind → Nat
  | .LParen => 0
  | .RParen => 1
  | .LBrac => 2
  | .RBrac => 3
  | .Comma => 4
  | .Dot => 5
  | .Minus => 6
  | .Plus => 7
  | .Semicolon => 8
  | .Slash => 9
  | .Star => 10
  | .Bang => 11
  | .BangEqual => 12
  | .Equal => 13
  | .EqualEqual => 14
  | .Greater => 15
  | .GreaterEqual => 16
  | .Less => 17
  | .LessEqual => 18
  | .Identifier => 19
  | .StringLiteral => 20
  | .Number => 21
  | .And => 22
  | .Class => 23
  | .Else => 24
  | .False => 25
  | .Fn => 26
  | .For => 27
  | .If => 28
  | .Nil => 29
  | .Or => 30
  | .Print => 31
  | .Return => 32
  | .Super => 33
  | .This => 34
  | .True => 35
  | .Var => 36
  | .While => 37
  | .LineComment => 38
  | .BlockComment => 39
  | .Whitespace => 40
  | .Newline => 41
  | .ErrorUnexpected => 42
  | .ErrorUnterminatedString => 43
  | .Unary => 44
  | .Factor => 45
  | .Term => 46
  | .Comparison => 47
  | .Equality => 48
  | .Root => 49

/-- Decoding of a raw ordinal into a `SyntaxKind`, the inverse of
`syntaxKindIdx` (the `transmute::<u16, SyntaxKind>` of `kind_from_raw`,
defined for valid ordinals only). -/
def syntaxKindOfIdx : Nat → Option SyntaxKind
  | 0 => some .LParen
  | 1 => some .RParen
  | 2 => some .LBrac
  | 3 => some .RBrac
  | 4 => some .Comma
  | 5 => some .Dot
  | 6 => some .Minus
  | 7 => some .Plus
  | 8 => some .Semicolon
  | 9 => some .Slash
  | 10 => some .Star
  | 11 => some .Bang
  | 12 => some .BangEqual
  | 13 => some .Equal
  | 14 => some .EqualEqual
  | 15 => some .Greater
  | 16 => some .GreaterEqual
  | 17 => some .Less
  | 18 => some .LessEqual
  | 19 => some .Identifier
  | 20 => some .StringLiteral
  | 21 => some .Number
  | 22 => some .And
  | 23 => some .Class
  | 24 => some .Else
  | 25 => some .False
  | 26 => some .Fn
  | 27 => some .For
  | 28 => some .If
  | 29 => some .Nil
  | 30 => some .Or
  | 31 => some .Print
  | 32 => some .Return
  | 33 => some .Super
  | 34 => some .This
  | 35 => some .True
  | 36 => some .Var
  | 37 => some .While
  | 38 => some .LineComment
  | 39 => some .BlockComment
  | 40 => some .Whitespace
  | 41 => some .Newline
  | 42 => some .ErrorUnexpected
  | 43 => some .ErrorUnterminatedString
  | 44 => some .Unary
  | 45 => some .Factor
  | 46 => some .Term
  | 47 => some .Comparison
  | 48 => some .Equality
  | 49 => some .Root
  | _ => none

/-- `Lang::kind_from_raw` from `parser.rs`: `assert!(raw.0 <= SyntaxKind::Root
as u16)` followed by a transmute.  A raw value above `Root`'s ordinal fails
the assertion (a fatal programming error), modelled as `none`. -/
def kind_from_raw (raw : Nat) : Option SyntaxKind :=
  if raw ≤ syntaxKindIdx .Root then syntaxKindOfIdx raw else none

/-- The `SyntaxKind` enumeration exactly as generated by the `build_impls!`
macro invocation in the `types.rs` under `src/`: the 44 `TokenKind` variants
(the first pinned to ordinal `0`) followed by `Root` as the last, maximal
variant — and nothing else.  (`parser.rs` additionally references `Unary`,
`Factor`, `Term`, `Comparison`, `Equality`, which this enumeration does not
contain.) -/
inductive SyntaxKindTypes where
  | LParen | RParen | LBrac | RBrac | Comma | Dot | Minus | Plus | Semicolon | Slash | Star
  | Bang | BangEqual | Equal | EqualEqual | Greater | GreaterEqual | Less | LessEqual
  | Identifier | StringLiteral | Number
  | And | Class | Else | False | Fn | For | If | Nil | Or | Print | Return | Super | This
  | True | Var | While
  | LineComment | BlockComment | Whitespace | Newline
  | ErrorUnexpected | ErrorUnterminatedString
  | Root
  deriving DecidableEq, Fintype

/-- The `impl From<TokenKind> for SyntaxKind` generated by `build_impls!` in
the `types.rs` under `src/`: exhaustive same-name mapping. -/
def tokenKindToTypes : TokenKind → SyntaxKindTypes
  | .LParen => .LParen
  | .RParen => .RParen
  | .LBrac => .LBrac
  | .RBrac => .RBrac
  | .Comma => .Comma
  | .Dot => .Dot
  | .Minus => .Minus
  | .Plus => .Plus
  | .Semicolon => .Semicolon
  | .Slash => .Slash
  | .Star => .Star
  | .Bang => .Bang
  | .BangEqual => .BangEqual
  | .Equal => .Equal
  | .EqualEqual => .EqualEqual
  | .Greater => .Greater
  | .GreaterEqual => .GreaterEqual
  | .Less => .Less
  | .LessEqual => .LessEqual
  | .Identifier => .Identifier
  | .StringLiteral => .StringLiteral
  | .Number => .Number
  | .And => .And
  | .Class => .Class
  | .Else => .Else
  | .False => .False
  | .Fn => .Fn
  | .For => .For
  | .If => .If
  | .Nil => .Nil
  | .Or => .Or
  | .Print => .Print
  | .Return => .Return
  | .Super => .Super
  | .This => .This
  | .True => .True
  | .Var => .Var
  | .While => .While
  | .LineComment => .LineComment
  | .BlockComment => .BlockComment
  | .Whitespace => .Whitespace
  | .Newline => .Newline
  | .ErrorUnexpected => .ErrorUnexpected
  | .ErrorUnterminatedString => .ErrorUnterminatedString

/-- Ordinal of a `TokenKind` (declaration order, starting at `0`). -/
def tokenKindIdx (t : TokenKind) : Nat := syntaxKindIdx t.toSyntaxKind

/-- Ordinal of a `SyntaxKindTypes` value (`#[repr(u16)]`, first variant
pinned to `0`, `Root` last). -/
def typesIdx : SyntaxKindTypes → Nat
  | .Root => 44
  | .LParen => 0
  | .RParen => 1
  | .LBrac => 2
  | .RBrac => 3
  | .Comma => 4
  | .Dot => 5
  | .Minus => 6
  | .Plus => 7
  | .Semicolon => 8
  | .Slash => 9
  | .Star => 10
  | .Bang => 11
  | .BangEqual => 12
  | .Equal => 13
  | .EqualEqual => 14
  | .Greater => 15
  | .GreaterEqual => 16
  | .Less => 17
  | .LessEqual => 18
  | .Identifier => 19
  | .StringLiteral => 20
  | .Number => 21
  | .And => 22
  | .Class => 23
  | .Else => 24
  | .False => 25
  | .Fn => 26
  | .For => 27
  | .If => 28
  | .Nil => 29
  | .Or => 30
  | .Print => 31
  | .Return => 32
  | .Super => 33
  | .This => 34
  | .True => 35
  | .Var => 36
  | .While => 37
  | .LineComment => 38
  | .BlockComment => 39
  | .Whitespace => 40
  | .Newline => 41
  | .ErrorUnexpected => 42
  | .ErrorUnterminatedString => 43

/-- A tree-builder event, as emitted by the parser in lockstep
(`GreenNodeBuilder::start_node` / `::token` / `::finish_node`). -/
inductive Event where
  | start (k : SyntaxKind)
  | tok (t : Token)
  | finish
  deriving DecidableEq

/-- The output delta of one parser function: the remaining input tokens, the
builder events emitted (in order), and the error messages appended (in
order).  The Rust parser threads a single mutable state; since every
mutation is an append (to the builder event stream or the error list) or a
pop (from the token stream), each grammar function is equivalently a
function from its incoming token stream to such a delta, with the caller
concatenating the deltas in program order. -/
structure Step where
  toks : List Token
  evs : List Event
  errs : List String
  deriving DecidableEq

/-- The condition of `Parser::skip_ws`: `current() == Some(Whitespace)`. -/
def isWs (t : Token) : Bool := t.kind == TokenKind.Whitespace

/-- The condition of the trailing-newline loop in `Parser::parse`:
`current() == Some(Newline)`. -/
def isNl (t : Token) : Bool := t.kind == TokenKind.Newline

/-- The literal-token test of `Parser::primary`. -/
def isLit (t : Token) : Bool :=
  t.kind == TokenKind.False || t.kind == TokenKind.True || t.kind == TokenKind.Nil ||
    t.kind == TokenKind.Number || t.kind == TokenKind.StringLiteral

/-- The prefix-operator test of `Parser::unary`. -/
def isPre (t : Token) : Bool := t.kind == TokenKind.Bang || t.kind == TokenKind.Minus

/-- The operator test of the `Parser::factor` loop. -/
def isFacOp (t : Token) : Bool := t.kind == TokenKind.Slash || t.kind == TokenKind.Star

/-- The operator test of the `Parser::term` loop. -/
def isTermOp (t : Token) : Bool := t.kind == TokenKind.Minus || t.kind == TokenKind.Plus

/-- The operator test of the `Parser::comparison` loop. -/
def isCompOp (t : Token) : Bool :=
  t.kind == TokenKind.Greater || t.kind == TokenKind.GreaterEqual ||
    t.kind == TokenKind.Less || t.kind == TokenKind.LessEqual

/-- The operator test of the `Parser::equality` loop. -/
def isEqOp (t : Token) : Bool := t.kind == TokenKind.BangEqual || t.kind == TokenKind.EqualEqual

mutual

/-- `Parser::primary` from `parser.rs`: skip whitespace, then consume a
literal, or a parenthesised expression (with unexpected-token /
unexpected-EOF recovery after the inner expression), or wrap the offending
token in an `ErrorUnexpected` node, or report `Unexpected EOF`.

All eleven grammar functions carry structural fuel; every call passes the
predecessor.  `parserFuel` below supplies `11 * toks.length + 12`, which is
proved sufficient (`primaryF_stable` etc.): with that fuel the `0`-sentinel
branch is unreachable, so these functions compute exactly the deltas of the
always-terminating Rust functions. -/
def primaryF : Nat → List Token → Step
  | 0, toks => ⟨toks, [], []⟩
  | fuel + 1, toks =>
    let wevs := (toks.takeWhile isWs).map Event.tok
    match toks.dropWhile isWs with
    | [] => ⟨[], wevs, ["Unexpected EOF"]⟩
    | t :: r =>
      if isLit t then ⟨r, wevs ++ [Event.tok t], []⟩
      else if t.kind == TokenKind.LParen then
        let e := expressionF fuel r
        match e.toks with
        | t2 :: r2 =>
          if t2.kind == TokenKind.RParen then
            ⟨r2, wevs ++ Event.tok t :: e.evs ++ [Event.tok t2], e.errs⟩
          else
            ⟨r2, wevs ++ Event.tok t :: e.evs ++
              [Event.start SyntaxKind.ErrorUnexpected, Event.tok t2, Event.finish],
              e.errs ++ ["Unexpected token"]⟩
        | [] => ⟨[], wevs ++ Event.tok t :: e.evs, e.errs ++ ["Unexpected EOF"]⟩
      else
        ⟨r, wevs ++ [Event.start SyntaxKind.ErrorUnexpected, Event.tok t, Event.finish],
          ["Unexpected token"]⟩

/-- `Parser::unary` from `parser.rs`: skip whitespace; on a prefix `!` or `-`
start a `Unary` node, consume the operator and recurse — the source then
`return`s without ever calling `finish_node` for the `Unary` node, which
this embedding reproduces (no `Event.finish` in that branch); otherwise fall
through to `primary`. -/
def unaryF : Nat → List Token → Step
  | 0, toks => ⟨toks, [], []⟩
  | fuel + 1, toks =>
    let wevs := (toks.takeWhile isWs).map Event.tok
    match toks.dropWhile isWs with
    | t :: r =>
      if isPre t then
        let u := unaryF fuel r
        ⟨u.toks, wevs ++ Event.start SyntaxKind.Unary :: Event.tok t :: u.evs, u.errs⟩
      else
        let p := primaryF fuel (t :: r)
        ⟨p.toks, wevs ++ p.evs, p.errs⟩
    | [] =>
      let p := primaryF fuel []
      ⟨p.toks, wevs ++ p.evs, p.errs⟩

/-- The `while` loop of `Parser::factor`: as long as the current token is
`/` or `*`, consume it and parse another `unary`. -/
def facLoopF : Nat → List Token → Step
  | 0, toks => ⟨toks, [], []⟩
  | fuel + 1, toks =>
    match toks with
    | t :: r =>
      if isFacOp t then
        let u := unaryF fuel r
        let l := facLoopF fuel u.toks
        ⟨l.toks, Event.tok t :: u.evs ++ l.evs, u.errs ++ l.errs⟩
      else ⟨t :: r, [], []⟩
    | [] => ⟨[], [], []⟩

/-- `Parser::factor` from `parser.rs`: wrap `unary (("/"|"*") unary)*` in a
`Factor` node. -/
def factorF : Nat → List Token → Step
  | 0, toks => ⟨toks, [], []⟩
  | fuel + 1, toks =>
    let u := unaryF fuel toks
    let l := facLoopF fuel u.toks
    ⟨l.toks, Event.start SyntaxKind.Factor :: (u.evs ++ l.evs) ++ [Event.finish],
      u.errs ++ l.errs⟩

/-- The `while` loop of `Parser::term`. -/
def termLoopF : Nat → List Token → Step
  | 0, toks => ⟨toks, [], []⟩
  | fuel + 1, toks =>
    match toks with
    | t :: r =>
      if isTermOp t then
        let f := factorF fuel r
        let l := termLoopF fuel f.toks
        ⟨l.toks, Event.tok t :: f.evs ++ l.evs, f.errs ++ l.errs⟩
      else ⟨t :: r, [], []⟩
    | [] => ⟨[], [], []⟩

/-- `Parser::term` from `parser.rs`: wrap `factor (("-"|"+") factor)*` in a
`Term` node.  Note: no whitespace is skipped before the loop test. -/
def termF : Nat → List Token → Step
  | 0, toks => ⟨toks, [], []⟩
  | fuel + 1, toks =>
    let f := factorF fuel toks
    let l := termLoopF fuel f.toks
    ⟨l.toks, Event.start SyntaxKind.Term :: (f.evs ++ l.evs) ++ [Event.finish],
      f.errs ++ l.errs⟩

/-- The `while` loop of `Parser::comparison`. -/
def compLoopF : Nat → List Token → Step
  | 0, toks => ⟨toks, [], []⟩
  | fuel + 1, toks =>
    match toks with
    | t :: r =>
      if isCompOp t then
        let m := termF fuel r
        let l := compLoopF fuel m.toks
        ⟨l.toks, Event.tok t :: m.evs ++ l.evs, m.errs ++ l.errs⟩
      else ⟨t :: r, [], []⟩
    | [] => ⟨[], [], []⟩

/-- `Parser::comparison` from `parser.rs`: wrap
`term ((">"|">="|"<"|"<=") term)*` in a `Comparison` node. -/
def comparisonF : Nat → List Token → Step
  | 0, toks => ⟨toks, [], []⟩
  | fuel + 1, toks =>
    let m := termF fuel toks
    let l := compLoopF fuel m.toks
    ⟨l.toks, Event.start SyntaxKind.Comparison :: (m.evs ++ l.evs) ++ [Event.finish],
      m.errs ++ l.errs⟩

/-- The `while` loop of `Parser::equality`. -/
def eqLoopF : Nat → List Token → Step
  | 0, toks => ⟨toks, [], []⟩
  | fuel + 1, toks =>
    match toks with
    | t :: r =>
      if isEqOp t then
        let c := comparisonF fuel r
        let l := eqLoopF fuel c.toks
        ⟨l.toks, Event.tok t :: c.evs ++ l.evs, c.errs ++ l.errs⟩
      else ⟨t :: r, [], []⟩
    | [] => ⟨[], [], []⟩

/-- `Parser::equality` from `parser.rs`: wrap
`comparison` then `skip_ws` then `(("!="|"==") comparison)*` in an
`Equality` node (whitespace is skipped once, before the loop only). -/
def equalityF : Nat → List Token → Step
  | 0, toks => ⟨toks, [], []⟩
  | fuel + 1, toks =>
    let c := comparisonF fuel toks
    let wevs := (c.toks.takeWhile isWs).map Event.tok
    let l := eqLoopF fuel (c.toks.dropWhile isWs)
    ⟨l.toks, Event.start SyntaxKind.Equality :: (c.evs ++ wevs ++ l.evs) ++ [Event.finish],
      c.errs ++ l.errs⟩

/-- `Parser::expression` from `parser.rs`: `skip_ws` then `equality`. -/
def expressionF : Nat → List Token → Step
  | 0, toks => ⟨toks, [], []⟩
  | fuel + 1, toks =>
    let e := equalityF fuel (toks.dropWhile isWs)
    ⟨e.toks, (toks.takeWhile isWs).map Event.tok ++ e.evs, e.errs⟩

end

/-- Fuel that is always sufficient for the grammar functions above: the
call graph descends eleven ranks (`expression` down to `primary`) between
consecutive token consumptions, and every cycle consumes at least one
token. -/
def parserFuel (ts : List Token) : Nat := 11 * ts.length + 12

/-- `Parser::expression` applied to a token stream with sufficient fuel. -/
def expressionRun (ts : List Token) : Step := expressionF (parserFuel ts) ts

/-- `Parser::parse` from `parser.rs`, at the event level: start the `Root`
node, parse the top-level expression, `skip_ws`, consume trailing newlines,
and — whenever any token at all remains — wrap all remaining tokens in one
`ErrorUnexpected` node with the single message `"Expected EOF"`; finally
finish the `Root` node. -/
def parserRun (ts : List Token) : Step :=
  let e := expressionRun ts
  let rest1 := e.toks.dropWhile isWs
  let wevs := (e.toks.takeWhile isWs).map Event.tok
  let rest2 := rest1.dropWhile isNl
  let nevs := (rest1.takeWhile isNl).map Event.tok
  if rest2.isEmpty then
    ⟨[], Event.start SyntaxKind.Root :: (e.evs ++ wevs ++ nevs) ++ [Event.finish], e.errs⟩
  else
    ⟨[], Event.start SyntaxKind.Root :: (e.evs ++ wevs ++ nevs ++
        Event.start SyntaxKind.ErrorUnexpected :: rest2.map Event.tok ++ [Event.finish]) ++
        [Event.finish],
      e.errs ++ ["Expected EOF"]⟩

/-- The builder events emitted by a full parse. -/
def parseEvents (ts : List Token) : List Event := (parserRun ts).evs

/-- The error messages accumulated by a full parse, in order. -/
def parseErrors (ts : List Token) : List String := (parserRun ts).errs

/-- A node of the immutable ("green") parse tree: a token leaf or a
composite node with an ordered list of children. -/
inductive GNode where
  | leaf (t : Token)
  | node (k : SyntaxKind) (children : List GNode)

/-- The staging state of the tree builder: the stack of currently open
nodes (top first, each with its children collected so far in reverse), and
the finished root, if any. -/
structure BuildState where
  stack : List (SyntaxKind × List GNode)
  root : Option GNode

/-- Modelled from the spec: one operation of the tree builder (the
`rowan::GreenNodeBuilder` dependency, whose source is not part of this
repository).  Per §4.2 of the spec: `start_node(kind)` pushes a new open
node; `token(..)` appends a leaf to the node on top of the stack;
`finish_node()` pops the top node, finalizes it, and appends it as a child
of the new top — or makes it the tree root if the stack is now empty.
Mismatched start/finish pairing "is a programming-error, not a user-facing
parse error" (fatal), modelled as `none`. -/
def buildStep (s : BuildState) (e : Event) : Option BuildState :=
  match e with
  | .start k => if s.root.isSome then none else some ⟨(k, []) :: s.stack, s.root⟩
  | .tok t =>
    match s.stack with
    | (k, cs) :: rest => some ⟨(k, GNode.leaf t :: cs) :: rest, s.root⟩
    | [] => none
  | .finish =>
    match s.stack with
    | (k, cs) :: rest =>
      match rest with
      | (k2, cs2) :: r2 => some ⟨(k2, GNode.node k cs.reverse :: cs2) :: r2, s.root⟩
      | [] => some ⟨[], some (GNode.node k cs.reverse)⟩
    | [] => none

/-- Modelled from the spec: running the tree builder over a full event
stream.  The result is the finished immutable tree; leftover open nodes at
the end (or any mismatched operation along the way) are a fatal
programming error, modelled as `none`. -/
def buildGreen (evs : List Event) : Option GNode :=
  match evs.foldlM buildStep ⟨[], none⟩ with
  | some ⟨[], some n⟩ => some n
  | _ => none

/-- `parse` from `parser.rs`: run the parser over the token sequence and
finalize the builder, producing the green tree plus the ordered error list
(`struct Parse { green_node, errors }`); `none` models the fatal abort of
an unbalanced builder run. -/
def parse (ts : List Token) : Option (GNode × List String) :=
  (buildGreen (parserRun ts).evs).map (fun g => (g, (parserRun ts).errs))

/-- C1: REFUTED (code bug).  The claim states that `lex` and `parse` are
total and never abort.  In fact `lex "/*"` aborts: `valid_token` returns a
`BlockComment` token whose text `"/*/"` is one character longer than the
input (the unterminated-block-comment branch appends a closing `'/'` that
was never read), so the slice `&rest[next.text.len()..]` in `lex` is out of
bounds.  And `parse` on the token sequence of `"-3"` (a prefix `-`
operator) aborts in the tree builder: `unary` starts a `Unary` node it
never finishes, so the builder terminates with the `Root` node still open. -/
theorem C1_front_end_aborts :
    lex ucTest ['/', '*'] = none ∧
    parse [⟨.Minus, ['-']⟩, ⟨.Number, ['3']⟩] = none :=
  ⟨by decide, rfl⟩

/-- C2: REFUTED (code bug).  The claim states the lossless round-trip for
every input, in particular for unterminated block comments.  On the input
`"/*a"` the lexer aborts (token text `"/*a/"` longer than the input), so no
token sequence is produced at all, and in particular none whose texts
concatenate to the input. -/
theorem C2_roundtrip_fails_on_unterminated_block_comment :
    lex ucTest ['/', '*', 'a'] = none := by decide

/-- C3: REFUTED (code bug).  `lex "1 + 2"` does produce the five claimed
tokens, but `parse` does not yield zero errors with `Plus` inside the
`Term` node: only `expression`, `equality`, `unary` and `primary` skip
whitespace, while the `term` loop peeks at the raw current token — which is
`Whitespace` — so the loop never sees `Plus`.  The parser then wraps
`Plus`, the whitespace and the second `Number` in an `ErrorUnexpected`
node with the error `"Expected EOF"`. -/
theorem C3_one_plus_two :
    lex ucTest "1 + 2".toList =
      some [⟨.Number, ['1']⟩, ⟨.Whitespace, [' ']⟩, ⟨.Plus, ['+']⟩,
        ⟨.Whitespace, [' ']⟩, ⟨.Number, ['2']⟩] ∧
    parseEvents [⟨.Number, ['1']⟩, ⟨.Whitespace, [' ']⟩, ⟨.Plus, ['+']⟩,
        ⟨.Whitespace, [' ']⟩, ⟨.Number, ['2']⟩] =
      [.start .Root, .start .Equality, .start .Comparison, .start .Term, .start .Factor,
        .tok ⟨.Number, ['1']⟩, .finish, .finish, .finish, .tok ⟨.Whitespace, [' ']⟩, .finish,
        .start .ErrorUnexpected, .tok ⟨.Plus, ['+']⟩, .tok ⟨.Whitespace, [' ']⟩,
        .tok ⟨.Number, ['2']⟩, .finish, .finish] ∧
    parseErrors [⟨.Number, ['1']⟩, ⟨.Whitespace, [' ']⟩, ⟨.Plus, ['+']⟩,
        ⟨.Whitespace, [' ']⟩, ⟨.Number, ['2']⟩] = ["Expected EOF"] :=
  ⟨by decide, by decide, by decide⟩

/-- C4: REFUTED (code bug).  On the token sequence of `"-1"` the parser
emits six `start` events but only five `finish` events: `unary` starts the
`Unary` node, adds the operator and recurses for the operand, but never
emits the matching `finish`; the `finish` of `factor` therefore closes the
`Unary` node and the builder ends with the `Root` node still open (a fatal
pairing violation, `buildGreen = none`).  The no-prefix direction of the
claim does hold: with no prefix operator no `Unary` node is started (second
conjunct). -/
theorem C4_unary_never_finished :
    parseEvents [⟨.Minus, ['-']⟩, ⟨.Number, ['1']⟩] =
      [.start .Root, .start .Equality, .start .Comparison, .start .Term, .start .Factor,
        .start .Unary, .tok ⟨.Minus, ['-']⟩, .tok ⟨.Number, ['1']⟩,
        .finish, .finish, .finish, .finish, .finish] ∧
    parseEvents [⟨.Number, ['1']⟩] =
      [.start .Root, .start .Equality, .start .Comparison, .start .Term, .start .Factor,
        .tok ⟨.Number, ['1']⟩, .finish, .finish, .finish, .finish, .finish] ∧
    buildGreen (parseEvents [⟨.Minus, ['-']⟩, ⟨.Number, ['1']⟩]) = none :=
  ⟨by decide, by decide, rfl⟩

/-- C5: REFUTED (code bug).  In the `types.rs` under `src/`, the
`build_impls!` invocation generates `SyntaxKind` as the 44 `TokenKind`
variants plus `Root` only: the conversion is injective and
ordinal-preserving (first and fourth conjuncts) and `Root` is the maximal
ordinal 44, but every `SyntaxKind` value is either `Root` or the image of a
`TokenKind` (third conjunct) — the composite kinds `Unary`, `Factor`,
`Term`, `Comparison`, `Equality` required by the claim (and referenced by
`parser.rs`) are not in the enumeration. -/
theorem C5_types_syntax_kind_composites_missing :
    (∀ t : TokenKind, typesIdx (tokenKindToTypes t) = tokenKindIdx t) ∧
    Function.Injective tokenKindToTypes ∧
    (∀ s : SyntaxKindTypes, s = SyntaxKindTypes.Root ∨
      ∃ t : TokenKind, tokenKindToTypes t = s) ∧
    typesIdx SyntaxKindTypes.Root = 44 :=
  ⟨by decide, by decide, by decide, rfl⟩

/-- C10: REFUTED (code bug).  A leading Unicode-numeric character does
start a `Number` token (first conjunct, with the Arabic-Indic digit `'٣'`),
and a leading alphabetic character an `Identifier` (third conjunct, with
`'é'`); but a leading `'_'` does not start an identifier: the guard of the
Rust match arm `c @ '_' | c if c.is_alphabetic()` applies to both
alternatives, `'_'` is not alphabetic, and so `'_'` falls through to the
invalid-token scanner and lexes as `ErrorUnexpected` (second conjunct),
contradicting the claim that such inputs never lex as `ErrorUnexpected`. -/
theorem C10_underscore_is_rejected :
    lex ucTest ['٣'] = some [⟨.Number, ['٣']⟩] ∧
    lex ucTest ['_'] = some [⟨.ErrorUnexpected, ['_']⟩] ∧
    lex ucTest ['é'] = some [⟨.Identifier, ['é']⟩] :=
  ⟨by decide, by decide, by decide⟩

/-- C7: CONFIRMED.  When no valid token can be recognised, the
invalid-token scanner consumes at least one code point, never more than the
input, the scanned run contains no position (after the first code point)
where a valid token could be recognised, the run ends at the input's end or
at the first position where a valid token can be recognised, and the
emitted token is a single `ErrorUnexpected` spanning exactly that run. -/
theorem C7_invalid_token_progress_and_span (cc : CharClass) (input : List Char)
    (h : input ≠ []) (_hnv : validToken cc input = none) :
    1 ≤ invalidLen cc input ∧
    invalidLen cc input ≤ input.length ∧
    (∀ j, 1 ≤ j → j < invalidLen cc input → validToken cc (input.drop j) = none) ∧
    (invalidLen cc input = input.length ∨
      (validToken cc (input.drop (invalidLen cc input))).isSome = true) ∧
    invalidToken cc input =
      ⟨TokenKind.ErrorUnexpected, input.take (invalidLen cc input)⟩ := by
  clear _hnv
  induction input with
  | nil => cases h rfl
  | cons c rest ih =>
    by_cases hv : (validToken cc rest).isSome
    · have hlen : invalidLen cc (c :: rest) = 1 := by simp [invalidLen, hv]
      refine ⟨by omega, by simp [hlen], ?_, ?_, rfl⟩
      · intro j h1 h2; omega
      · right; simpa [hlen] using hv
    · by_cases hrest : rest = []
      · subst hrest
        have hlen : invalidLen cc [c] = 1 := by simp [invalidLen, validToken]
        exact ⟨by omega, by simp [hlen], by intro j h1 h2; omega,
          Or.inl (by simp [hlen]), rfl⟩
      · obtain ⟨ih1, ih2, ih3, ih4, _⟩ := ih hrest
        have hlen : invalidLen cc (c :: rest) = 1 + invalidLen cc rest := by
          simp [invalidLen, hv]
        refine ⟨by omega, ?_, ?_, ?_, rfl⟩
        · simp only [hlen, List.length_cons]; omega
        · intro j h1 h2
          rw [hlen] at h2
          cases j with
          | zero => omega
          | succ j2 =>
            rw [List.drop_succ_cons]
            cases j2 with
            | zero => simpa using Option.not_isSome_iff_eq_none.mp hv
            | succ j3 => exact ih3 (j3 + 1) (by omega) (by omega)
        · rcases ih4 with h4 | h4
          · left; simp only [hlen, h4, List.length_cons]; omega
          · right
            have hc : (1 : Nat) + invalidLen cc rest = invalidLen cc rest + 1 :=
              Nat.add_comm 1 _
            rw [hlen, hc, List.drop_succ_cons]
            exact h4

/-- Witness for C7 at the concrete input `"??1"` (where `'?'` starts no
valid token but `'1'` does): the scanner consumes exactly the two `'?'`
code points. -/
theorem C7_witness :
    (['?', '?', '1'] ≠ ([] : List Char)) ∧
    validToken ucTest ['?', '?', '1'] = none ∧
    (1 ≤ invalidLen ucTest ['?', '?', '1'] ∧
      invalidLen ucTest ['?', '?', '1'] ≤ (['?', '?', '1'] : List Char).length ∧
      (∀ j, 1 ≤ j → j < invalidLen ucTest ['?', '?', '1'] →
        validToken ucTest ((['?', '?', '1'] : List Char).drop j) = none) ∧
      (invalidLen ucTest ['?', '?', '1'] = (['?', '?', '1'] : List Char).length ∨
        (validToken ucTest ((['?', '?', '1'] : List Char).drop
          (invalidLen ucTest ['?', '?', '1']))).isSome = true) ∧
      invalidToken ucTest ['?', '?', '1'] =
        ⟨TokenKind.ErrorUnexpected,
          (['?', '?', '1'] : List Char).take (invalidLen ucTest ['?', '?', '1'])⟩) :=
  ⟨by decide, by decide,
    C7_invalid_token_progress_and_span ucTest ['?', '?', '1'] (by decide) (by decide)⟩

/-- C8: CONFIRMED (over the spec-modelled `SyntaxKind`, `Root` maximal with
ordinal 49).  `kind_from_raw` succeeds on every raw value up to and
including `Root`'s ordinal, returning the kind with exactly that ordinal,
and is a fatal assertion failure (`none`) on every larger value. -/
theorem C8_kind_from_raw_bounds (raw : Nat) :
    (raw ≤ syntaxKindIdx SyntaxKind.Root →
      ∃ k, kind_from_raw raw = some k ∧ syntaxKindIdx k = raw) ∧
    (syntaxKindIdx SyntaxKind.Root < raw → kind_from_raw raw = none) := by
  constructor
  · intro h
    have h49 : raw ≤ 49 := h
    interval_cases raw <;> exact ⟨_, rfl, rfl⟩
  · intro h
    have h49 : ¬ raw ≤ syntaxKindIdx SyntaxKind.Root := by
      simp only [syntaxKindIdx] at h ⊢
      omega
    simp [kind_from_raw, h49]

/-- Witness for C8 at the concrete ordinals `0` (decodes to `LParen`), `49`
(decodes to `Root`) and `50` (fatal). -/
theorem C8_witness :
    ((0 ≤ syntaxKindIdx SyntaxKind.Root) ∧
      ∃ k, kind_from_raw 0 = some k ∧ syntaxKindIdx k = 0) ∧
    ((49 ≤ syntaxKindIdx SyntaxKind.Root) ∧
      ∃ k, kind_from_raw 49 = some k ∧ syntaxKindIdx k = 49) ∧
    ((syntaxKindIdx SyntaxKind.Root < 50) ∧ kind_from_raw 50 = none) :=
  ⟨⟨by decide, (C8_kind_from_raw_bounds 0).1 (by decide)⟩,
   ⟨by decide, (C8_kind_from_raw_bounds 49).1 (by decide)⟩,
   ⟨by decide, (C8_kind_from_raw_bounds 50).2 (by decide)⟩⟩

/-- C9: CONFIRMED.  Only `Whitespace` tokens are skipped for parsing
decisions: when the first non-`Whitespace` token of the input is a
`LineComment`, `BlockComment` or `Newline` token, the descent
`expression → equality → comparison → term → factor → unary` reaches
`primary`, which treats that token as unexpected, so the very first error
recorded by `parse` is `"Unexpected token"`. -/
theorem C9_comments_and_newlines_not_skipped (ts : List Token) (t : Token) (r : List Token)
    (hd : ts.dropWhile isWs = t :: r)
    (hk : t.kind = TokenKind.LineComment ∨ t.kind = TokenKind.BlockComment ∨
      t.kind = TokenKind.Newline) :
    (parseErrors ts).head? = some "Unexpected token" := by
  have hws : isWs t = false := by rcases hk with hk | hk | hk <;> simp [isWs, hk]
  have hpre : isPre t = false := by rcases hk with hk | hk | hk <;> simp [isPre, hk]
  have hlit : isLit t = false := by rcases hk with hk | hk | hk <;> simp [isLit, hk]
  have hlp : (t.kind == TokenKind.LParen) = false := by
    rcases hk with hk | hk | hk <;> simp [hk]
  have key : ∃ tail, (expressionRun ts).errs = "Unexpected token" :: tail := by
    simp only [expressionRun, parserFuel, expressionF, equalityF, comparisonF, termF,
      factorF, unaryF, primaryF, hd, List.dropWhile_cons, List.takeWhile_cons,
      hws, hpre, hlit, hlp, Bool.false_eq_true, if_false, reduceIte]
    simp [List.append_assoc]
  obtain ⟨tail, hkey⟩ := key
  simp only [parseErrors, parserRun]
  split <;> simp [hkey]

/-- Witness for C9 at the concrete token sequence `[Whitespace " ",
LineComment "//"]`: the parser reports `"Unexpected token"` first. -/
theorem C9_witness :
    (([⟨.Whitespace, [' ']⟩, ⟨.LineComment, ['/', '/']⟩] : List Token).dropWhile isWs =
      [⟨.LineComment, ['/', '/']⟩]) ∧
    ((⟨.LineComment, ['/', '/']⟩ : Token).kind = TokenKind.LineComment ∨
      (⟨.LineComment, ['/', '/']⟩ : Token).kind = TokenKind.BlockComment ∨
      (⟨.LineComment, ['/', '/']⟩ : Token).kind = TokenKind.Newline) ∧
    (parseErrors [⟨.Whitespace, [' ']⟩, ⟨.LineComment, ['/', '/']⟩]).head? =
      some "Unexpected token" :=
  ⟨by decide, by decide,
    C9_comments_and_newlines_not_skipped
      [⟨.Whitespace, [' ']⟩, ⟨.LineComment, ['/', '/']⟩]
      ⟨.LineComment, ['/', '/']⟩ [] (by decide) (by decide)⟩

/-- The eleven grammar functions record only the two `primary`-level
messages: every error they append is `"Unexpected token"` or
`"Unexpected EOF"` (in particular, never `"Expected EOF"`, which only
`Parser::parse` appends). -/
theorem grammar_errs_msgs (fuel : Nat) :
    (∀ toks m, m ∈ (primaryF fuel toks).errs →
      m = "Unexpected token" ∨ m = "Unexpected EOF") ∧
    (∀ toks m, m ∈ (unaryF fuel toks).errs →
      m = "Unexpected token" ∨ m = "Unexpected EOF") ∧
    (∀ toks m, m ∈ (facLoopF fuel toks).errs →
      m = "Unexpected token" ∨ m = "Unexpected EOF") ∧
    (∀ toks m, m ∈ (factorF fuel toks).errs →
      m = "Unexpected token" ∨ m = "Unexpected EOF") ∧
    (∀ toks m, m ∈ (termLoopF fuel toks).errs →
      m = "Unexpected token" ∨ m = "Unexpected EOF") ∧
    (∀ toks m, m ∈ (termF fuel toks).errs →
      m = "Unexpected token" ∨ m = "Unexpected EOF") ∧
    (∀ toks m, m ∈ (compLoopF fuel toks).errs →
      m = "Unexpected token" ∨ m = "Unexpected EOF") ∧
    (∀ toks m, m ∈ (comparisonF fuel toks).errs →
      m = "Unexpected token" ∨ m = "Unexpected EOF") ∧
    (∀ toks m, m ∈ (eqLoopF fuel toks).errs →
      m = "Unexpected token" ∨ m = "Unexpected EOF") ∧
    (∀ toks m, m ∈ (equalityF fuel toks).errs →
      m = "Unexpected token" ∨ m = "Unexpected EOF") ∧
    (∀ toks m, m ∈ (expressionF fuel toks).errs →
      m = "Unexpected token" ∨ m = "Unexpected EOF") := by
  induction fuel with
  | zero =>
    refine ⟨?_, ?_, ?_, ?_, ?_, ?_, ?_, ?_, ?_, ?_, ?_⟩ <;>
      · intro toks m hm
        simp [primaryF, unaryF, facLoopF, factorF, termLoopF, termF, compLoopF,
          comparisonF, eqLoopF, equalityF, expressionF] at hm
  | succ f ih =>
    obtain ⟨ihP, ihU, ihFL, ihF, ihTL, ihT, ihCL, ihC, ihEL, ihE, ihX⟩ := ih
    have hP : ∀ toks m, m ∈ (primaryF (f + 1) toks).errs →
        m = "Unexpected token" ∨ m = "Unexpected EOF" := by
      intro toks m hm
      cases hdw : toks.dropWhile isWs with
      | nil =>
        simp [primaryF, hdw] at hm
        exact Or.inr hm
      | cons t r =>
        by_cases hlit : isLit t
        · simp [primaryF, hdw, hlit] at hm
        · by_cases hlp : (t.kind == TokenKind.LParen) = true
          · cases he : (expressionF f r).toks with
            | nil =>
              simp [primaryF, hdw, hlit, hlp, he] at hm
              rcases hm with hm | hm
              · exact ihX r m hm
              · exact Or.inr hm
            | cons t2 r2 =>
              by_cases hrp : (t2.kind == TokenKind.RParen) = true
              · simp [primaryF, hdw, hlit, hlp, he, hrp] at hm
                exact ihX r m hm
              · simp [primaryF, hdw, hlit, hlp, he, hrp] at hm
                rcases hm with hm | hm
                · exact ihX r m hm
                · exact Or.inl hm
          · simp [primaryF, hdw, hlit, hlp] at hm
            exact Or.inl hm
    have hU : ∀ toks m, m ∈ (unaryF (f + 1) toks).errs →
        m = "Unexpected token" ∨ m = "Unexpected EOF" := by
      intro toks m hm
      cases hdw : toks.dropWhile isWs with
      | nil =>
        simp [unaryF, hdw] at hm
        exact ihP [] m hm
      | cons t r =>
        by_cases hpre : isPre t
        · simp [unaryF, hdw, hpre] at hm
          exact ihU r m hm
        · simp [unaryF, hdw, hpre] at hm
          exact ihP (t :: r) m hm
    have hFL : ∀ toks m, m ∈ (facLoopF (f + 1) toks).errs →
        m = "Unexpected token" ∨ m = "Unexpected EOF" := by
      intro toks m hm
      cases toks with
      | nil => simp [facLoopF] at hm
      | cons t r =>
        by_cases hop : isFacOp t
        · simp [facLoopF, hop] at hm
          rcases hm with hm | hm
          · exact ihU r m hm
          · exact ihFL _ m hm
        · simp [facLoopF, hop] at hm
    have hF : ∀ toks m, m ∈ (factorF (f + 1) toks).errs →
        m = "Unexpected token" ∨ m = "Unexpected EOF" := by
      intro toks m hm
      simp [factorF] at hm
      rcases hm with hm | hm
      · exact ihU toks m hm
      · exact ihFL _ m hm
    have hTL : ∀ toks m, m ∈ (termLoopF (f + 1) toks).errs →
        m = "Unexpected token" ∨ m = "Unexpected EOF" := by
      intro toks m hm
      cases toks with
      | nil => simp [termLoopF] at hm
      | cons t r =>
        by_cases hop : isTermOp t
        · simp [termLoopF, hop] at hm
          rcases hm with hm | hm
          · exact ihF r m hm
          · exact ihTL _ m hm
        · simp [termLoopF, hop] at hm
    have hT : ∀ toks m, m ∈ (termF (f + 1) toks).errs →
        m = "Unexpected token" ∨ m = "Unexpected EOF" := by
      intro toks m hm
      simp [termF] at hm
      rcases hm with hm | hm
      · exact ihF toks m hm
      · exact ihTL _ m hm
    have hCL : ∀ toks m, m ∈ (compLoopF (f + 1) toks).errs →
        m = "Unexpected token" ∨ m = "Unexpected EOF" := by
      intro toks m hm
      cases toks with
      | nil => simp [compLoopF] at hm
      | cons t r =>
        by_cases hop : isCompOp t
        · simp [compLoopF, hop] at hm
          rcases hm with hm | hm
          · exact ihT r m hm
          · exact ihCL _ m hm
        · simp [compLoopF, hop] at hm
    have hC : ∀ toks m, m ∈ (comparisonF (f + 1) toks).errs →
        m = "Unexpected token" ∨ m = "Unexpected EOF" := by
      intro toks m hm
      simp [comparisonF] at hm
      rcases hm with hm | hm
      · exact ihT toks m hm
      · exact ihCL _ m hm
    have hEL : ∀ toks m, m ∈ (eqLoopF (f + 1) toks).errs →
        m = "Unexpected token" ∨ m = "Unexpected EOF" := by
      intro toks m hm
      cases toks with
      | nil => simp [eqLoopF] at hm
      | cons t r =>
        by_cases hop : isEqOp t
        · simp [eqLoopF, hop] at hm
          rcases hm with hm | hm
          · exact ihC r m hm
          · exact ihEL _ m hm
        · simp [eqLoopF, hop] at hm
    have hE : ∀ toks m, m ∈ (equalityF (f + 1) toks).errs →
        m = "Unexpected token" ∨ m = "Unexpected EOF" := by
      intro toks m hm
      simp [equalityF] at hm
      rcases hm with hm | hm
      · exact ihC toks m hm
      · exact ihEL _ m hm
    have hX : ∀ toks m, m ∈ (expressionF (f + 1) toks).errs →
        m = "Unexpected token" ∨ m = "Unexpected EOF" := by
      intro toks m hm
      simp [expressionF] at hm
      exact ihE _ m hm
    exact ⟨hP, hU, hFL, hF, hTL, hT, hCL, hC, hEL, hE, hX⟩

/-- C6: counterexample to the claim as stated.  On the token sequence of
`"1\n "` (`Number`, `Newline`, `Whitespace`), after the top-level expression
the parser consumes trailing whitespace and then trailing newlines — in that
order, once — so the `Whitespace` token following the `Newline` remains.  It
is trivia, hence by the claim ("if and only if any non-trivia token remains
after that") no error should be produced; yet the parser wraps it in an
`ErrorUnexpected` node and appends `"Expected EOF"`. -/
theorem C6_counterexample :
    (((expressionRun [⟨.Number, ['1']⟩, ⟨.Newline, ['\n']⟩, ⟨.Whitespace, [' ']⟩]).toks.dropWhile
        isWs).dropWhile isNl) = [⟨.Whitespace, [' ']⟩] ∧
    (⟨.Whitespace, [' ']⟩ : Token).kind = TokenKind.Whitespace ∧
    parseErrors [⟨.Number, ['1']⟩, ⟨.Newline, ['\n']⟩, ⟨.Whitespace, [' ']⟩] =
      ["Expected EOF"] :=
  ⟨by decide, rfl, by decide⟩

/-- C6 (amended): CONFIRMED.  After the top-level expression, the parser
consumes a trailing `Whitespace` run and then a trailing `Newline` run
without error; if any token at all remains after that — whether trivia or
not (cf. `C6_counterexample`) — all remaining tokens are wrapped in a
single `ErrorUnexpected` node and consumed, with exactly one message
`"Expected EOF"` appended (the grammar functions themselves never produce
that message); in every case the parser consumes all input tokens and
returns exactly one result. -/
theorem C6_eof_handling (ts : List Token) :
    (parserRun ts).toks = [] ∧
    (parserRun ts).errs =
      (expressionRun ts).errs ++
        (if (((expressionRun ts).toks.dropWhile isWs).dropWhile isNl).isEmpty then []
          else ["Expected EOF"]) ∧
    "Expected EOF" ∉ (expressionRun ts).errs ∧
    (parserRun ts).evs =
      Event.start SyntaxKind.Root ::
        ((expressionRun ts).evs ++ ((expressionRun ts).toks.takeWhile isWs).map Event.tok ++
          (((expressionRun ts).toks.dropWhile isWs).takeWhile isNl).map Event.tok ++
          (if (((expressionRun ts).toks.dropWhile isWs).dropWhile isNl).isEmpty then []
            else Event.start SyntaxKind.ErrorUnexpected ::
              ((((expressionRun ts).toks.dropWhile isWs).dropWhile isNl).map Event.tok ++
                [Event.finish]))) ++ [Event.finish] := by
  refine ⟨?_, ?_, ?_, ?_⟩
  · simp only [parserRun]
    split <;> rfl
  · simp only [parserRun]
    split <;> simp_all
  · intro hmem
    have := (grammar_errs_msgs (parserFuel ts)).2.2.2.2.2.2.2.2.2.2 ts "Expected EOF" hmem
    simp at this
  · simp only [parserRun]
    split <;> simp_all [List.append_assoc]

/-- Every grammar function only consumes tokens: the remaining token stream
never grows (mirrors the Rust parser's monotonically advancing cursor). -/
theorem grammar_consume (fuel : Nat) :
    (∀ toks, (primaryF fuel toks).toks.length ≤ toks.length) ∧
    (∀ toks, (unaryF fuel toks).toks.length ≤ toks.length) ∧
    (∀ toks, (facLoopF fuel toks).toks.length ≤ toks.length) ∧
    (∀ toks, (factorF fuel toks).toks.length ≤ toks.length) ∧
    (∀ toks, (termLoopF fuel toks).toks.length ≤ toks.length) ∧
    (∀ toks, (termF fuel toks).toks.length ≤ toks.length) ∧
    (∀ toks, (compLoopF fuel toks).toks.length ≤ toks.length) ∧
    (∀ toks, (comparisonF fuel toks).toks.length ≤ toks.length) ∧
    (∀ toks, (eqLoopF fuel toks).toks.length ≤ toks.length) ∧
    (∀ toks, (equalityF fuel toks).toks.length ≤ toks.length) ∧
    (∀ toks, (expressionF fuel toks).toks.length ≤ toks.length) := by
  induction fuel with
  | zero =>
    refine ⟨?_, ?_, ?_, ?_, ?_, ?_, ?_, ?_, ?_, ?_, ?_⟩ <;>
      · intro toks
        simp [primaryF, unaryF, facLoopF, factorF, termLoopF, termF, compLoopF,
          comparisonF, eqLoopF, equalityF, expressionF]
  | succ f ih =>
    obtain ⟨ihP, ihU, ihFL, ihF, ihTL, ihT, ihCL, ihC, ihEL, ihE, ihX⟩ := ih
    have hP : ∀ toks, (primaryF (f + 1) toks).toks.length ≤ toks.length := by
      intro toks
      have hdwle : (toks.dropWhile isWs).length ≤ toks.length :=
        (List.dropWhile_sublist isWs).length_le
      cases hdw : toks.dropWhile isWs with
      | nil => simp [primaryF, hdw]
      | cons t r =>
        rw [hdw] at hdwle
        simp only [List.length_cons] at hdwle
        by_cases hlit : isLit t
        · simp [primaryF, hdw, hlit]; omega
        · by_cases hlp : (t.kind == TokenKind.LParen) = true
          · have hexp := ihX r
            cases he : (expressionF f r).toks with
            | nil => simp [primaryF, hdw, hlit, hlp, he]
            | cons t2 r2 =>
              rw [he] at hexp
              simp only [List.length_cons] at hexp
              by_cases hrp : (t2.kind == TokenKind.RParen) = true
              · simp [primaryF, hdw, hlit, hlp, he, hrp]; omega
              · simp [primaryF, hdw, hlit, hlp, he, hrp]; omega
          · simp [primaryF, hdw, hlit, hlp]; omega
    have hU : ∀ toks, (unaryF (f + 1) toks).toks.length ≤ toks.length := by
      intro toks
      have hdwle : (toks.dropWhile isWs).length ≤ toks.length :=
        (List.dropWhile_sublist isWs).length_le
      cases hdw : toks.dropWhile isWs with
      | nil =>
        have := ihP []
        simp only [List.length_nil, Nat.le_zero] at this
        simp [unaryF, hdw, this]
      | cons t r =>
        rw [hdw] at hdwle
        simp only [List.length_cons] at hdwle
        by_cases hpre : isPre t
        · have := ihU r
          simp [unaryF, hdw, hpre]; omega
        · have := ihP (t :: r)
          simp only [List.length_cons] at this
          simp [unaryF, hdw, hpre]; omega
    have hFL : ∀ toks, (facLoopF (f + 1) toks).toks.length ≤ toks.length := by
      intro toks
      cases toks with
      | nil => simp [facLoopF]
      | cons t r =>
        by_cases hop : isFacOp t
        · have h1 := ihU r
          have h2 := ihFL (unaryF f r).toks
          simp [facLoopF, hop]; omega
        · simp [facLoopF, hop]
    have hF : ∀ toks, (factorF (f + 1) toks).toks.length ≤ toks.length := by
      intro toks
      have h1 := ihU toks
      have h2 := ihFL (unaryF f toks).toks
      simp [factorF]; omega
    have hTL : ∀ toks, (termLoopF (f + 1) toks).toks.length ≤ toks.length := by
      intro toks
      cases toks with
      | nil => simp [termLoopF]
      | cons t r =>
        by_cases hop : isTermOp t
        · have h1 := ihF r
          have h2 := ihTL (factorF f r).toks
          simp [termLoopF, hop]; omega
        · simp [termLoopF, hop]
    have hT : ∀ toks, (termF (f + 1) toks).toks.length ≤ toks.length := by
      intro toks
      have h1 := ihF toks
      have h2 := ihTL (factorF f toks).toks
      simp [termF]; omega
    have hCL : ∀ toks, (compLoopF (f + 1) toks).toks.length ≤ toks.length := by
      intro toks
      cases toks with
      | nil => simp [compLoopF]
      | cons t r =>
        by_cases hop : isCompOp t
        · have h1 := ihT r
          have h2 := ihCL (termF f r).toks
          simp [compLoopF, hop]; omega
        · simp [compLoopF, hop]
    have hC : ∀ toks, (comparisonF (f + 1) toks).toks.length ≤ toks.length := by
      intro toks
      have h1 := ihT toks
      have h2 := ihCL (termF f toks).toks
      simp [comparisonF]; omega
    have hEL : ∀ toks, (eqLoopF (f + 1) toks).toks.length ≤ toks.length := by
      intro toks
      cases toks with
      | nil => simp [eqLoopF]
      | cons t r =>
        by_cases hop : isEqOp t
        · have h1 := ihC r
          have h2 := ihEL (comparisonF f r).toks
          simp [eqLoopF, hop]; omega
        · simp [eqLoopF, hop]
    have hE : ∀ toks, (equalityF (f + 1) toks).toks.length ≤ toks.length := by
      intro toks
      have h1 := ihC toks
      have h2 := ihEL ((comparisonF f toks).toks.dropWhile isWs)
      have h3 : ((comparisonF f toks).toks.dropWhile isWs).length ≤
          (comparisonF f toks).toks.length :=
        (List.dropWhile_sublist isWs).length_le
      simp [equalityF]; omega
    have hX : ∀ toks, (expressionF (f + 1) toks).toks.length ≤ toks.length := by
      intro toks
      have h1 := ihE (toks.dropWhile isWs)
      have h2 : (toks.dropWhile isWs).length ≤ toks.length :=
        (List.dropWhile_sublist isWs).length_le
      simp [expressionF]; omega
    exact ⟨hP, hU, hFL, hF, hTL, hT, hCL, hC, hEL, hE, hX⟩

/-- Fuel irrelevance: above the threshold `11 * toks.length + rank` (with
the functions ranked `primary` = 1 up to `expression` = 11 along the
grammar descent), the result of every grammar function is independent of
the fuel.  Together with `grammar_consume` this shows the fuel supplied by
`parserFuel` is sufficient: the `0`-sentinel branches are semantically
unreachable and the embedding computes the Rust parser's unique fixed
behaviour. -/
theorem grammar_fuel_stable : ∀ N g h, g + h ≤ N →
    (∀ toks, 11 * toks.length + 1 ≤ g → 11 * toks.length + 1 ≤ h →
      primaryF g toks = primaryF h toks) ∧
    (∀ toks, 11 * toks.length + 2 ≤ g → 11 * toks.length + 2 ≤ h →
      unaryF g toks = unaryF h toks) ∧
    (∀ toks, 11 * toks.length + 3 ≤ g → 11 * toks.length + 3 ≤ h →
      facLoopF g toks = facLoopF h toks) ∧
    (∀ toks, 11 * toks.length + 4 ≤ g → 11 * toks.length + 4 ≤ h →
      factorF g toks = factorF h toks) ∧
    (∀ toks, 11 * toks.length + 5 ≤ g → 11 * toks.length + 5 ≤ h →
      termLoopF g toks = termLoopF h toks) ∧
    (∀ toks, 11 * toks.length + 6 ≤ g → 11 * toks.length + 6 ≤ h →
      termF g toks = termF h toks) ∧
    (∀ toks, 11 * toks.length + 7 ≤ g → 11 * toks.length + 7 ≤ h →
      compLoopF g toks = compLoopF h toks) ∧
    (∀ toks, 11 * toks.length + 8 ≤ g → 11 * toks.length + 8 ≤ h →
      comparisonF g toks = comparisonF h toks) ∧
    (∀ toks, 11 * toks.length + 9 ≤ g → 11 * toks.length + 9 ≤ h →
      eqLoopF g toks = eqLoopF h toks) ∧
    (∀ toks, 11 * toks.length + 10 ≤ g → 11 * toks.length + 10 ≤ h →
      equalityF g toks = equalityF h toks) ∧
    (∀ toks, 11 * toks.length + 11 ≤ g → 11 * toks.length + 11 ≤ h →
      expressionF g toks = expressionF h toks) := by
  intro N
  induction N with
  | zero =>
    intro g h hgh
    refine ⟨?_, ?_, ?_, ?_, ?_, ?_, ?_, ?_, ?_, ?_, ?_⟩ <;> · intro toks hg hh; omega
  | succ N ihN =>
    intro g h hgh
    match g, h with
    | 0, _ =>
      refine ⟨?_, ?_, ?_, ?_, ?_, ?_, ?_, ?_, ?_, ?_, ?_⟩ <;> · intro toks hg hh; omega
    | _ + 1, 0 =>
      refine ⟨?_, ?_, ?_, ?_, ?_, ?_, ?_, ?_, ?_, ?_, ?_⟩ <;> · intro toks hg hh; omega
    | g0 + 1, h0 + 1 =>
      obtain ⟨ihP, ihU, ihFL, ihF, ihTL, ihT, ihCL, ihC, ihEL, ihE, ihX⟩ :=
        ihN g0 h0 (by omega)
      obtain ⟨_, cU, _, cF, _, cT, _, cC, _, _, _⟩ := grammar_consume h0
      have hP : ∀ toks, 11 * toks.length + 1 ≤ g0 + 1 → 11 * toks.length + 1 ≤ h0 + 1 →
          primaryF (g0 + 1) toks = primaryF (h0 + 1) toks := by
        intro toks hg hh
        have hdwle : (toks.dropWhile isWs).length ≤ toks.length :=
          (List.dropWhile_sublist isWs).length_le
        cases hdw : toks.dropWhile isWs with
        | nil => simp [primaryF, hdw]
        | cons t r =>
          rw [hdw] at hdwle
          simp only [List.length_cons] at hdwle
          by_cases hlit : isLit t
          · simp [primaryF, hdw, hlit]
          · by_cases hlp : (t.kind == TokenKind.LParen) = true
            · have hex : expressionF g0 r = expressionF h0 r :=
                ihX r (by omega) (by omega)
              simp [primaryF, hdw, hlit, hlp, hex]
            · simp [primaryF, hdw, hlit, hlp]
      have hU : ∀ toks, 11 * toks.length + 2 ≤ g0 + 1 → 11 * toks.length + 2 ≤ h0 + 1 →
          unaryF (g0 + 1) toks = unaryF (h0 + 1) toks := by
        intro toks hg hh
        have hdwle : (toks.dropWhile isWs).length ≤ toks.length :=
          (List.dropWhile_sublist isWs).length_le
        cases hdw : toks.dropWhile isWs with
        | nil =>
          have hp : primaryF g0 [] = primaryF h0 [] :=
            ihP [] (by simp only [List.length_nil]; omega) (by simp only [List.length_nil]; omega)
          simp [unaryF, hdw, hp]
        | cons t r =>
          rw [hdw] at hdwle
          simp only [List.length_cons] at hdwle
          by_cases hpre : isPre t
          · have hu : unaryF g0 r = unaryF h0 r := ihU r (by omega) (by omega)
            simp [unaryF, hdw, hpre, hu]
          · have hp : primaryF g0 (t :: r) = primaryF h0 (t :: r) := by
              apply ihP (t :: r) <;> simp only [List.length_cons] <;> omega
            simp [unaryF, hdw, hpre, hp]
      have hFL : ∀ toks, 11 * toks.length + 3 ≤ g0 + 1 → 11 * toks.length + 3 ≤ h0 + 1 →
          facLoopF (g0 + 1) toks = facLoopF (h0 + 1) toks := by
        intro toks hg hh
        cases toks with
        | nil => simp [facLoopF]
        | cons t r =>
          simp only [List.length_cons] at hg hh
          by_cases hop : isFacOp t
          · have hu : unaryF g0 r = unaryF h0 r := ihU r (by omega) (by omega)
            have hcons := cU r
            have hl : facLoopF g0 (unaryF h0 r).toks = facLoopF h0 (unaryF h0 r).toks :=
              ihFL (unaryF h0 r).toks (by omega) (by omega)
            simp [facLoopF, hop, hu, hl]
          · simp [facLoopF, hop]
      have hF : ∀ toks, 11 * toks.length + 4 ≤ g0 + 1 → 11 * toks.length + 4 ≤ h0 + 1 →
          factorF (g0 + 1) toks = factorF (h0 + 1) toks := by
        intro toks hg hh
        have hu : unaryF g0 toks = unaryF h0 toks := ihU toks (by omega) (by omega)
        have hcons := cU toks
        have hl : facLoopF g0 (unaryF h0 toks).toks = facLoopF h0 (unaryF h0 toks).toks :=
          ihFL (unaryF h0 toks).toks (by omega) (by omega)
        simp [factorF, hu, hl]
      have hTL : ∀ toks, 11 * toks.length + 5 ≤ g0 + 1 → 11 * toks.length + 5 ≤ h0 + 1 →
          termLoopF (g0 + 1) toks = termLoopF (h0 + 1) toks := by
        intro toks hg hh
        cases toks with
        | nil => simp [termLoopF]
        | cons t r =>
          simp only [List.length_cons] at hg hh
          by_cases hop : isTermOp t
          · have hf : factorF g0 r = factorF h0 r := ihF r (by omega) (by omega)
            have hcons := cF r
            have hl : termLoopF g0 (factorF h0 r).toks = termLoopF h0 (factorF h0 r).toks :=
              ihTL (factorF h0 r).toks (by omega) (by omega)
            simp [termLoopF, hop, hf, hl]
          · simp [termLoopF, hop]
      have hT : ∀ toks, 11 * toks.length + 6 ≤ g0 + 1 → 11 * toks.length + 6 ≤ h0 + 1 →
          termF (g0 + 1) toks = termF (h0 + 1) toks := by
        intro toks hg hh
        have hf : factorF g0 toks = factorF h0 toks := ihF toks (by omega) (by omega)
        have hcons := cF toks
        have hl : termLoopF g0 (factorF h0 toks).toks = termLoopF h0 (factorF h0 toks).toks :=
          ihTL (factorF h0 toks).toks (by omega) (by omega)
        simp [termF, hf, hl]
      have hCL : ∀ toks, 11 * toks.length + 7 ≤ g0 + 1 → 11 * toks.length + 7 ≤ h0 + 1 →
          compLoopF (g0 + 1) toks = compLoopF (h0 + 1) toks := by
        intro toks hg hh
        cases toks with
        | nil => simp [compLoopF]
        | cons t r =>
          simp only [List.length_cons] at hg hh
          by_cases hop : isCompOp t
          · have hm : termF g0 r = termF h0 r := ihT r (by omega) (by omega)
            have hcons := cT r
            have hl : compLoopF g0 (termF h0 r).toks = compLoopF h0 (termF h0 r).toks :=
              ihCL (termF h0 r).toks (by omega) (by omega)
            simp [compLoopF, hop, hm, hl]
          · simp [compLoopF, hop]
      have hC : ∀ toks, 11 * toks.length + 8 ≤ g0 + 1 → 11 * toks.length + 8 ≤ h0 + 1 →
          comparisonF (g0 + 1) toks = comparisonF (h0 + 1) toks := by
        intro toks hg hh
        have hm : termF g0 toks = termF h0 toks := ihT toks (by omega) (by omega)
        have hcons := cT toks
        have hl : compLoopF g0 (termF h0 toks).toks = compLoopF h0 (termF h0 toks).toks :=
          ihCL (termF h0 toks).toks (by omega) (by omega)
        simp [comparisonF, hm, hl]
      have hEL : ∀ toks, 11 * toks.length + 9 ≤ g0 + 1 → 11 * toks.length + 9 ≤ h0 + 1 →
          eqLoopF (g0 + 1) toks = eqLoopF (h0 + 1) toks := by
        intro toks hg hh
        cases toks with
        | nil => simp [eqLoopF]
        | cons t r =>
          simp only [List.length_cons] at hg hh
          by_cases hop : isEqOp t
          · have hc : comparisonF g0 r = comparisonF h0 r := ihC r (by omega) (by omega)
            have hcons := cC r
            have hl : eqLoopF g0 (comparisonF h0 r).toks =
                eqLoopF h0 (comparisonF h0 r).toks :=
              ihEL (comparisonF h0 r).toks (by omega) (by omega)
            simp [eqLoopF, hop, hc, hl]
          · simp [eqLoopF, hop]
      have hE : ∀ toks, 11 * toks.length + 10 ≤ g0 + 1 → 11 * toks.length + 10 ≤ h0 + 1 →
          equalityF (g0 + 1) toks = equalityF (h0 + 1) toks := by
        intro toks hg hh
        have hc : comparisonF g0 toks = comparisonF h0 toks := ihC toks (by omega) (by omega)
        have hcons := cC toks
        have hdwle : ((comparisonF h0 toks).toks.dropWhile isWs).length ≤
            (comparisonF h0 toks).toks.length :=
          (List.dropWhile_sublist isWs).length_le
        have hl : eqLoopF g0 ((comparisonF h0 toks).toks.dropWhile isWs) =
            eqLoopF h0 ((comparisonF h0 toks).toks.dropWhile isWs) :=
          ihEL ((comparisonF h0 toks).toks.dropWhile isWs) (by omega) (by omega)
        simp [equalityF, hc, hl]
      have hX : ∀ toks, 11 * toks.length + 11 ≤ g0 + 1 → 11 * toks.length + 11 ≤ h0 + 1 →
          expressionF (g0 + 1) toks = expressionF (h0 + 1) toks := by
        intro toks hg hh
        have hdwle : (toks.dropWhile isWs).length ≤ toks.length :=
          (List.dropWhile_sublist isWs).length_le
        have he : equalityF g0 (toks.dropWhile isWs) = equalityF h0 (toks.dropWhile isWs) :=
          ihE (toks.dropWhile isWs) (by omega) (by omega)
        simp [expressionF, he]
      exact ⟨hP, hU, hFL, hF, hTL, hT, hCL, hC, hEL, hE, hX⟩

/-- Any fuel of at least `parserFuel ts` computes the same result as
`expressionRun`: the fuel threaded through the embedding is sufficient. -/
theorem expressionF_stable (ts : List Token) (g : Nat) (hg : parserFuel ts ≤ g) :
    expressionF g ts = expressionRun ts := by
  have h := (grammar_fuel_stable (g + parserFuel ts) g (parserFuel ts)
    le_rfl).2.2.2.2.2.2.2.2.2.2
  apply h ts
  · simp only [parserFuel] at hg ⊢; omega
  · simp only [parserFuel]; omega

/-- Dropping the `takeWhile` length is the same as `dropWhile`. -/
theorem dropWhile_eq_drop_len (p : Char → Bool) (l : List Char) :
    l.drop (l.takeWhile p).length = l.dropWhile p := by
  induction l with
  | nil => rfl
  | cons a l ih =>
    by_cases h : p a <;> simp [List.dropWhile_cons, List.takeWhile_cons, h, ih]

/-- The first token not dropped by `dropWhile` fails the predicate. -/
theorem dropWhile_head_false (p : Char → Bool) (l : List Char) (x : Char) (xs : List Char)
    (h : l.dropWhile p = x :: xs) : p x = false := by
  induction l with
  | nil => simp at h
  | cons a l ih =>
    by_cases ha : p a
    · rw [List.dropWhile_cons, if_pos ha] at h
      exact ih h
    · rw [List.dropWhile_cons, if_neg ha] at h
      cases h
      exact Bool.of_not_eq_true ha

/-- The invalid-token scanner never scans past the end of the input. -/
theorem invalidLen_le (cc : CharClass) (l : List Char) : invalidLen cc l ≤ l.length := by
  induction l with
  | nil => simp [invalidLen]
  | cons c rest ih =>
    by_cases hv : (validToken cc rest).isSome
    · simp [invalidLen, hv]
    · simp [invalidLen, hv]; omega

/-- Span of the block-comment text built by `valid_token`: writing
`pairs = (c :: rest).zip rest` (all adjacent pairs of the input) and `M`
for the second components of the pairs kept before the first `('*','/')`,
the text `c :: (M ++ ['/'])` either is a prefix of `c :: rest` (the
comment is closed by some `*/`) or is exactly one character longer than
the whole input (no `*/` exists: the trailing `'/'` is invented). -/
theorem bcSpan : ∀ (rest : List Char) (c : Char),
    (∃ z, (c :: ((((c :: rest).zip rest).takeWhile
        (fun p => !(p.1 = '*' && p.2 = '/'))).map Prod.snd ++ ['/'])) ++ z = c :: rest) ∨
    (c :: ((((c :: rest).zip rest).takeWhile
        (fun p => !(p.1 = '*' && p.2 = '/'))).map Prod.snd ++ ['/'])).length =
      (c :: rest).length + 1 := by
  intro rest
  induction rest with
  | nil =>
    intro c
    right
    simp
  | cons d rest2 ih =>
    intro c
    by_cases hq : (!(c = '*' && d = '/')) = true
    · have hzip : ((c :: d :: rest2).zip (d :: rest2)) =
          (c, d) :: ((d :: rest2).zip rest2) := rfl
      rw [hzip, List.takeWhile_cons, if_pos hq]
      rcases ih d with ⟨z, hz⟩ | hlen
      · left
        refine ⟨z, ?_⟩
        simp only [List.map_cons, List.cons_append, List.append_assoc] at hz ⊢
        have hz2 := (List.cons.injEq _ _ _ _).mp hz
        rw [hz2.2]
      · right
        simp only [List.map_cons, List.cons_append, List.length_cons,
          List.length_append] at hlen ⊢
        omega
    · have hcd : c = '*' ∧ d = '/' := by
        simpa using hq
      have hzip : ((c :: d :: rest2).zip (d :: rest2)) =
          (c, d) :: ((d :: rest2).zip rest2) := rfl
      rw [hzip, List.takeWhile_cons, if_neg hq]
      left
      refine ⟨rest2, ?_⟩
      simp [hcd.2]

/-- Every token recognised by `valid_token` has nonempty text, and that
text is either an exact prefix of the input or — only in the unterminated
block-comment case — exactly one character longer than the whole input
(the invented trailing `'/'`). -/
theorem validToken_fits (cc : CharClass) (input : List Char) (t : Token)
    (h : validToken cc input = some t) :
    t.text ≠ [] ∧ ((∃ z, t.text ++ z = input) ∨ t.text.length = input.length + 1) := by
  cases input with
  | nil => simp [validToken] at h
  | cons c rest =>
    simp only [validToken, List.tail_cons] at h
    by_cases h1 : c = '('
    · rw [if_pos h1] at h
      injection h with h; subst h
      exact ⟨by simp, Or.inl ⟨rest, by simp⟩⟩
    rw [if_neg h1] at h
    by_cases h2 : c = ')'
    · rw [if_pos h2] at h
      injection h with h; subst h
      exact ⟨by simp, Or.inl ⟨rest, by simp⟩⟩
    rw [if_neg h2] at h
    by_cases h3 : c = '{'
    · rw [if_pos h3] at h
      injection h with h; subst h
      exact ⟨by simp, Or.inl ⟨rest, by simp⟩⟩
    rw [if_neg h3] at h
    by_cases h4 : c = '}'
    · rw [if_pos h4] at h
      injection h with h; subst h
      exact ⟨by simp, Or.inl ⟨rest, by simp⟩⟩
    rw [if_neg h4] at h
    by_cases h5 : c = ','
    · rw [if_pos h5] at h
      injection h with h; subst h
      exact ⟨by simp, Or.inl ⟨rest, by simp⟩⟩
    rw [if_neg h5] at h
    by_cases h6 : c = '.'
    · rw [if_pos h6] at h
      injection h with h; subst h
      exact ⟨by simp, Or.inl ⟨rest, by simp⟩⟩
    rw [if_neg h6] at h
    by_cases h7 : c = '-'
    · rw [if_pos h7] at h
      injection h with h; subst h
      exact ⟨by simp, Or.inl ⟨rest, by simp⟩⟩
    rw [if_neg h7] at h
    by_cases h8 : c = '+'
    · rw [if_pos h8] at h
      injection h with h; subst h
      exact ⟨by simp, Or.inl ⟨rest, by simp⟩⟩
    rw [if_neg h8] at h
    by_cases h9 : c = ';'
    · rw [if_pos h9] at h
      injection h with h; subst h
      exact ⟨by simp, Or.inl ⟨rest, by simp⟩⟩
    rw [if_neg h9] at h
    by_cases h10 : c = '*'
    · rw [if_pos h10] at h
      injection h with h; subst h
      exact ⟨by simp, Or.inl ⟨rest, by simp⟩⟩
    rw [if_neg h10] at h
    by_cases h11 : c = '!'
    · rw [if_pos h11] at h
      subst h11
      split at h
      · injection h with h; subst h
        rename_i r2
        exact ⟨by simp, Or.inl ⟨r2, by simp⟩⟩
      · injection h with h; subst h
        exact ⟨by simp, Or.inl ⟨rest, by simp⟩⟩
    rw [if_neg h11] at h
    by_cases h12 : c = '='
    · rw [if_pos h12] at h
      subst h12
      split at h
      · injection h with h; subst h
        rename_i r2
        exact ⟨by simp, Or.inl ⟨r2, by simp⟩⟩
      · injection h with h; subst h
        exact ⟨by simp, Or.inl ⟨rest, by simp⟩⟩
    rw [if_neg h12] at h
    by_cases h13 : c = '<'
    · rw [if_pos h13] at h
      subst h13
      split at h
      · injection h with h; subst h
        rename_i r2
        exact ⟨by simp, Or.inl ⟨r2, by simp⟩⟩
      · injection h with h; subst h
        exact ⟨by simp, Or.inl ⟨rest, by simp⟩⟩
    rw [if_neg h13] at h
    by_cases h14 : c = '>'
    · rw [if_pos h14] at h
      subst h14
      split at h
      · injection h with h; subst h
        rename_i r2
        exact ⟨by simp, Or.inl ⟨r2, by simp⟩⟩
      · injection h with h; subst h
        exact ⟨by simp, Or.inl ⟨rest, by simp⟩⟩
    rw [if_neg h14] at h
    by_cases h15 : c = '/'
    · rw [if_pos h15] at h
      subst h15
      split at h
      · -- line comment
        injection h with h; subst h
        rename_i r2
        refine ⟨by simp, Or.inl ⟨r2.dropWhile (fun x => x ≠ '\n'), ?_⟩⟩
        simp [List.takeWhile_append_dropWhile]
      · -- block comment
        injection h with h; subst h
        rename_i a
        refine ⟨by simp, ?_⟩
        exact bcSpan ('*' :: a) '/'
      · -- division
        injection h with h; subst h
        exact ⟨by simp, Or.inl ⟨rest, by simp⟩⟩
    rw [if_neg h15] at h
    by_cases h16 : c = ' ' ∨ c = '\r' ∨ c = '\t'
    · rw [if_pos h16] at h
      injection h with h; subst h
      refine ⟨by simp, Or.inl
        ⟨rest.dropWhile (fun x => x = ' ' || x = '\r' || x = '\t'), ?_⟩⟩
      simp [List.takeWhile_append_dropWhile]
    rw [if_neg h16] at h
    by_cases h17 : c = '"'
    · rw [if_pos h17] at h
      by_cases h18 : (rest.takeWhile (fun x => x ≠ '"')).length = rest.length
      · rw [if_pos h18] at h
        injection h with h; subst h
        exact ⟨by simp, Or.inl ⟨[], by simp⟩⟩
      · rw [if_neg h18] at h
        injection h with h; subst h
        refine ⟨by simp, ?_⟩
        cases hdw : rest.dropWhile (fun x => x ≠ '"') with
        | nil =>
          exfalso
          apply h18
          have hsplit := List.takeWhile_append_dropWhile (fun x => x ≠ '"') rest
          rw [hdw, List.append_nil] at hsplit
          rw [hsplit]
        | cons x xs =>
          have hx : x = '"' := by
            have := dropWhile_head_false (fun x => x ≠ '"') rest x xs hdw
            simpa using this
          have hsplit := List.takeWhile_append_dropWhile (fun x => x ≠ '"') rest
          rw [hdw, hx] at hsplit
          refine Or.inl ⟨xs, ?_⟩
          conv_rhs => rw [← hsplit]
          simp
    rw [if_neg h17] at h
    by_cases h19 : c = '\n'
    · rw [if_pos h19] at h
      injection h with h; subst h
      exact ⟨by simp, Or.inl ⟨rest, by simp⟩⟩
    rw [if_neg h19] at h
    by_cases h20 : cc.isNumeric c
    · rw [if_pos h20] at h
      rw [dropWhile_eq_drop_len (fun x => cc.isNumeric x || x = '_') rest] at h
      have hsplit :=
        List.takeWhile_append_dropWhile (fun x => cc.isNumeric x || x = '_') rest
      split at h
      · rename_i tl heq
        -- a '.' follows the integer part
        split at h
        · rename_i d ds2
          by_cases hd : cc.isNumeric d
          · rw [if_pos hd] at h
            injection h with h; subst h
            refine ⟨by simp, Or.inl
              ⟨(d :: ds2).dropWhile (fun x => cc.isNumeric x || x = '_'), ?_⟩⟩
            conv_rhs => rw [← hsplit, heq]
            simp [List.cons_append, List.append_assoc, List.takeWhile_append_dropWhile]
          · rw [if_neg hd] at h
            injection h with h; subst h
            refine ⟨by simp, Or.inl ⟨rest.dropWhile (fun x => cc.isNumeric x || x = '_'), ?_⟩⟩
            simp [List.takeWhile_append_dropWhile]
        · injection h with h; subst h
          refine ⟨by simp, Or.inl ⟨rest.dropWhile (fun x => cc.isNumeric x || x = '_'), ?_⟩⟩
          simp [List.takeWhile_append_dropWhile]
      · injection h with h; subst h
        refine ⟨by simp, Or.inl ⟨rest.dropWhile (fun x => cc.isNumeric x || x = '_'), ?_⟩⟩
        simp [List.takeWhile_append_dropWhile]
    rw [if_neg h20] at h
    by_cases h21 : cc.isAlphabetic c
    · rw [if_pos h21] at h
      injection h with h; subst h
      refine ⟨by simp, Or.inl
        ⟨rest.dropWhile (fun x => cc.isAlphabetic x || cc.isNumeric x || x = '_'), ?_⟩⟩
      simp [List.takeWhile_append_dropWhile]
    rw [if_neg h21] at h
    simp at h

/-- The invalid-token scanner consumes at least one code point on nonempty
input. -/
theorem invalidLen_pos (cc : CharClass) (c : Char) (rest : List Char) :
    1 ≤ invalidLen cc (c :: rest) := by
  simp only [invalidLen]
  omega

/-- Lossless round-trip of the lexer loop: whenever `lexGo` returns a token
sequence, concatenating its texts reproduces the input exactly. -/
theorem lexGo_roundtrip (cc : CharClass) :
    ∀ fuel input ts, lexGo cc fuel input = some ts →
      (ts.map Token.text).flatten = input := by
  intro fuel
  induction fuel with
  | zero =>
    intro input ts h
    cases input with
    | nil =>
      simp only [lexGo] at h
      injection h with h; subst h
      simp
    | cons c rest => simp [lexGo] at h
  | succ f ih =>
    intro input ts h
    cases input with
    | nil =>
      simp only [lexGo] at h
      injection h with h; subst h
      simp
    | cons c rest =>
      simp only [lexGo] at h
      cases hv : validToken cc (c :: rest) with
      | some tok =>
        rw [hv] at h
        simp only [Option.getD_some] at h
        split at h
        · rename_i hle
          split at h
          · rename_i ts2 hrec
            injection h with h; subst h
            simp only [List.map_cons, List.flatten_cons]
            rw [ih _ _ hrec]
            obtain ⟨-, hfit⟩ := validToken_fits cc (c :: rest) tok hv
            rcases hfit with ⟨z, hz⟩ | hover
            · have hdrop : (c :: rest).drop tok.text.length = z := by
                rw [← hz]
                exact List.drop_left _ _
              rw [hdrop]
              exact hz
            · exfalso
              simp only [List.length_cons] at hle hover
              omega
          · exact absurd h (by simp)
        · exact absurd h (by simp)
      | none =>
        rw [hv] at h
        simp only [Option.getD_none] at h
        split at h
        · rename_i hle
          split at h
          · rename_i ts2 hrec
            injection h with h; subst h
            simp only [List.map_cons, List.flatten_cons]
            rw [ih _ _ hrec]
            simp only [invalidToken]
            have hlen : ((c :: rest).take (invalidLen cc (c :: rest))).length =
                invalidLen cc (c :: rest) := by
              rw [List.length_take]
              exact Nat.min_eq_left (invalidLen_le cc (c :: rest))
            rw [hlen]
            exact List.take_append_drop _ _
          · exact absurd h (by simp)
        · exact absurd h (by simp)

/-- Lossless round-trip of `lex`, conditional on `lex` returning at all:
exactly the `debug_assert` at the end of the Rust `lex`.  (There are inputs
on which `lex` does not return; see the C1/C2 theorems.) -/
theorem lex_roundtrip (cc : CharClass) (input : List Char) (ts : List Token)
    (h : lex cc input = some ts) : (ts.map Token.text).flatten = input :=
  lexGo_roundtrip cc _ input ts h

/-- Fuel irrelevance for the lexer loop: any fuel exceeding the input
length computes the same result, so the `input.length + 1` supplied by
`lex` is exact (each emitted token consumes at least one character). -/
theorem lexGo_stable (cc : CharClass) :
    ∀ f g input, input.length < f → input.length < g →
      lexGo cc f input = lexGo cc g input := by
  intro f
  induction f with
  | zero => intro g input hf hg; omega
  | succ f0 ih =>
    intro g input hf hg
    cases g with
    | zero => omega
    | succ g0 =>
      cases input with
      | nil => simp [lexGo]
      | cons c rest =>
        simp only [lexGo]
        have hpos : 1 ≤ ((validToken cc (c :: rest)).getD
            (invalidToken cc (c :: rest))).text.length := by
          cases hv : validToken cc (c :: rest) with
          | some tok =>
            simp only [hv, Option.getD_some]
            obtain ⟨hne, -⟩ := validToken_fits cc (c :: rest) tok hv
            cases htext : tok.text with
            | nil => exact absurd htext hne
            | cons a l => simp [htext]
          | none =>
            simp only [hv, Option.getD_none, invalidToken]
            rw [List.length_take]
            have h1 := invalidLen_pos cc c rest
            have h2 : 1 ≤ (c :: rest).length := by simp
            omega
        have hrec := ih g0 ((c :: rest).drop ((validToken cc (c :: rest)).getD
            (invalidToken cc (c :: rest))).text.length)
        rw [hrec]
        · simp only [List.length_drop, List.length_cons] at *
          omega
        · simp only [List.length_drop, List.length_cons] at *
          omega

/-- Sanity: on a single `Number` token (no prefix operator, nothing
trailing) the whole pipeline produces the fully wrapped tree of spec §4.3
— `Root [Equality [Comparison [Term [Factor [leaf]]]]]` — with no error. -/
theorem parse_single_number_tree :
    parse [⟨.Number, ['1']⟩] =
      some (GNode.node .Root [GNode.node .Equality [GNode.node .Comparison
        [GNode.node .Term [GNode.node .Factor [GNode.leaf ⟨.Number, ['1']⟩]]]]], []) := rfl

/-- Sanity: a terminated block comment lexes as one `BlockComment` token
with the exact text, and a string missing its closing quote as one
`ErrorUnterminatedString` token holding all consumed text (spec §8
scenario 3). -/
theorem lex_block_comment_and_string :
    lex ucTest "/**/".toList = some [⟨.BlockComment, "/**/".toList⟩] ∧
    lex ucTest "\"abc".toList = some [⟨.ErrorUnterminatedString, "\"abc".toList⟩] := by
  exact ⟨by decide, by decide⟩

/-- Sanity: the empty input lexes to no tokens, and parsing no tokens
yields exactly the error `"Unexpected EOF"` (spec §8 scenario 5). -/
theorem lex_parse_empty :
    lex ucTest [] = some [] ∧ parseErrors [] = ["Unexpected EOF"] := by
  exact ⟨by decide, by decide⟩
